import Mathlib

/-!
# Verification of the reactivity core (`@vue/reactivity`)

Shallow embedding of the dependency-tracking engine of this repository:
`packages/reactivity/src/dep.ts` (the `Dep` class, `addSub`, the module-level
`track`/`trigger`), `packages/reactivity/src/computed.ts` (`ComputedRefImpl`'s
value setter), and `packages/reactivity/src/debug.ts` (`onTrack`/`onTrigger`).

The mutable pointer graph of `Link`s is embedded as an explicit store:
association lists from numeric ids to link / dependency / subscriber records,
with every field read and write of the source mirrored as a store lookup or
update, in source order.  Module-level mutable state (`globalVersion`,
`activeSub`, `shouldTrack`, the batch depth, `targetMap`) lives in the same
state record.  The `__DEV__` build flag is an explicit `dev : Bool` parameter.

The `effect.ts` module of the repository is not part of the source tree here
(only its importers are), so the pieces of it that `dep.ts` consumes —
`EffectFlags` bit values, `startBatch`/`endBatch` as a reentrancy counter, and
the effect of `sub.notify()` — are modelled from the spec where noted; the
subscriber-side `notify()` call is recorded as an observable event rather than
interpreted, since no claim here depends on its internal behaviour.

JavaScript property accesses that can only fail on a corrupted heap (an id
that resolves to no record) make the embedding return `none`; a thrown
`TypeError` from the single non-null assertion in `Dep.track` is likewise
`none`.
-/

/-- Property keys of the `target -> key -> Dep` registry.  Integer-like keys
(JS integer strings and numbers, as recognised by `isIntegerKey`) are
collected in `idx`; `iterate` and `mapKeyIterate` are the `ITERATE_KEY` and
`MAP_KEY_ITERATE_KEY` symbols; `sym` is any other symbol key; `str` is any
other (non-integer, non-`'length'`) string key. -/
inductive Key where
  | length
  | idx (n : Nat)
  | str (s : String)
  | iterate
  | mapKeyIterate
  | sym (n : Nat)
deriving DecidableEq

/-- JS `isSymbol(key)` on a registry key. -/
def Key.isSymbolKey : Key → Bool
  | .iterate => true
  | .mapKeyIterate => true
  | .sym _ => true
  | _ => false

/-- JS `key >= newLength` under numeric coercion: an integer-like key compares
numerically; `'length'`, other strings and `Number(undefined)` coerce to `NaN`,
for which `>=` is always false. -/
def jsKeyGE (k : Key) (newLength : Option Nat) : Bool :=
  match k, newLength with
  | .idx m, some n => n ≤ m
  | _, _ => false

/-- JS `isIntegerKey(key)` on an optional key argument. -/
def isIntegerKeyOpt : Option Key → Bool
  | some (.idx _) => true
  | _ => false

/-- `TriggerOpTypes` from `constants.ts`. -/
inductive TriggerOp where
  | set
  | add
  | delete
  | clear
deriving DecidableEq

/-- `TrackOpTypes` from `constants.ts` (used only for debug info). -/
inductive TrackOp where
  | get
  | has
  | iterate
deriving DecidableEq

/-! Modelled from the spec: the `EffectFlags` bit values of the missing
`effect.ts` module (§3 "flag bits (`TRACKING`,`NOTIFIED`,`DIRTY`,...)"),
with the bit layout of the published package. -/
namespace EffectFlags

def TRACKING : Nat := 4

def NOTIFIED : Nat := 8

def DIRTY : Nat := 16

end EffectFlags

/-- A `Link` record (the object literal built in `Dep.track`, lines 41–50 of
`dep.ts`): one edge between one dependency and one subscriber, threaded into
two doubly linked lists. Ids of `none` are JS `undefined`. -/
structure LinkData where
  dep : Nat
  sub : Nat
  version : Int
  nextDep : Option Nat
  prevDep : Option Nat
  nextSub : Option Nat
  prevSub : Option Nat
  prevActiveLink : Option Nat
deriving DecidableEq

/-- The per-instance fields of the `Dep` class: `version`, the `activeLink`
fast-path cache, the tail `subs` of the subscriber list, and the optional
back-reference to a computed subscriber. -/
structure DepData where
  version : Int
  activeLink : Option Nat
  subs : Option Nat
  computed : Option Nat
deriving DecidableEq

/-- The subscriber-side fields `dep.ts` reads and writes: the tail pointer
`deps` of the subscriber's dependency list (maintained in `Dep.track`,
lines 52–56), the `flags` bitmask, whether the subscriber is a
`ComputedRefImpl` (the `instanceof` test in `notify`), and the presence of
the dev-only `onTrack`/`onTrigger` callbacks. -/
structure SubData where
  deps : Option Nat
  flags : Nat
  isComputed : Bool
  hasOnTrack : Bool
  hasOnTrigger : Bool
deriving DecidableEq

/-- What kind of object a registry target is (`isArray` / `isMap` of
`@vue/shared`). -/
structure TargetKind where
  isArray : Bool
  isMap : Bool
deriving DecidableEq

/-- The whole mutable state the reactivity module closes over: the link /
dep / subscriber stores, the `targetMap` registry, a fresh-id counter, and the
module-level globals of `dep.ts` and (spec-modelled) `effect.ts`. -/
structure RState where
  links : List (Nat × LinkData)
  deps : List (Nat × DepData)
  subs : List (Nat × SubData)
  targetMap : List (Nat × List (Key × Nat))
  kinds : List (Nat × TargetKind)
  nextId : Nat
  globalVersion : Int
  activeSub : Option Nat
  shouldTrack : Bool
  batchDepth : Nat
deriving DecidableEq

/-- First-match association-list lookup (object identity on numeric ids). -/
def alookup {α : Type} : List (Nat × α) → Nat → Option α
  | [], _ => none
  | (j, v) :: rest, i => if i = j then some v else alookup rest i

/-- First-match lookup in a `key -> dep` map. -/
def klookup : List (Key × Nat) → Key → Option Nat
  | [], _ => none
  | (k, v) :: rest, k' => if k' = k then some v else klookup rest k'

def getLink (σ : RState) (i : Nat) : Option LinkData := alookup σ.links i

def setLink (σ : RState) (i : Nat) (v : LinkData) : RState :=
  { σ with links := (i, v) :: σ.links }

def getDep (σ : RState) (i : Nat) : Option DepData := alookup σ.deps i

def setDep (σ : RState) (i : Nat) (v : DepData) : RState :=
  { σ with deps := (i, v) :: σ.deps }

def getSub (σ : RState) (i : Nat) : Option SubData := alookup σ.subs i

def setSub (σ : RState) (i : Nat) (v : SubData) : RState :=
  { σ with subs := (i, v) :: σ.subs }

theorem getLink_setLink (σ : RState) (i j : Nat) (v : LinkData) :
    getLink (setLink σ i v) j = if j = i then some v else getLink σ j := rfl

theorem getLink_setDep (σ : RState) (i j : Nat) (v : DepData) :
    getLink (setDep σ i v) j = getLink σ j := rfl

theorem getLink_setSub (σ : RState) (i j : Nat) (v : SubData) :
    getLink (setSub σ i v) j = getLink σ j := rfl

theorem getDep_setDep (σ : RState) (i j : Nat) (v : DepData) :
    getDep (setDep σ i v) j = if j = i then some v else getDep σ j := rfl

theorem getDep_setLink (σ : RState) (i j : Nat) (v : LinkData) :
    getDep (setLink σ i v) j = getDep σ j := rfl

theorem getDep_setSub (σ : RState) (i j : Nat) (v : SubData) :
    getDep (setSub σ i v) j = getDep σ j := rfl

theorem getSub_setLink (σ : RState) (i j : Nat) (v : LinkData) :
    getSub (setLink σ i v) j = getSub σ j := rfl

theorem getSub_setDep (σ : RState) (i j : Nat) (v : DepData) :
    getSub (setDep σ i v) j = getSub σ j := rfl

theorem getSub_setSub (σ : RState) (i j : Nat) (v : SubData) :
    getSub (setSub σ i v) j = if j = i then some v else getSub σ j := rfl

/-! ## `computed.ts` — the `ComputedRefImpl` value setter -/

/-- The observable pieces of a `ComputedRefImpl` for the setter path: whether
a setter was supplied, the `__v_isReadonly` flag set by the constructor, the
memoized/underlying value held by the `Computed` base class, and a count of
user-setter invocations (the setter itself is arbitrary user code; its own
effects are external to this module). -/
structure ComputedState where
  hasSetter : Bool
  isReadonly : Bool
  current : Int
  setterCalls : Nat
deriving DecidableEq

/-- The `ComputedRefImpl` constructor as far as the setter path observes it:
`this[ReactiveFlags.IS_READONLY] = !setter`. -/
def mkComputedRef (hasSetter : Bool) (v : Int) : ComputedState :=
  { hasSetter := hasSetter, isReadonly := !hasSetter, current := v, setterCalls := 0 }

/-- The readonly-computed warning message of `computed.ts` line 78. -/
def readonlyComputedWarning : String :=
  "Write operation failed: computed value is readonly"

/-- `set value(newValue)` of `ComputedRefImpl` (`computed.ts` lines 74–80):
if a setter exists, call it; otherwise warn in dev builds and do nothing in
production.  The result is the new state plus the warnings emitted; the
`Except` layer represents a thrown JS exception (this path contains no
`throw`, so the result is always `ok`). -/
def computedSetValue (dev : Bool) (c : ComputedState) (_newValue : Int) :
    Except String (ComputedState × List String) :=
  if c.hasSetter then .ok ({ c with setterCalls := c.setterCalls + 1 }, [])
  else if dev then .ok (c, [readonlyComputedWarning])
  else .ok (c, [])

/-! ## `debug.ts` — the dev-only hook dispatchers -/

/-- The debug-relevant shape of a subscriber as `debug.ts` sees it: whether
the user supplied `onTrack` / `onTrigger` callbacks. -/
structure DebugSub where
  hasOnTrack : Bool
  hasOnTrigger : Bool
deriving DecidableEq

/-- `onTrack` of `debug.ts` (lines 7–26): outside a development build it
throws an internal error before touching the subscriber; in a development
build it invokes the user's `onTrack` callback when present.  The result is
the thrown-or-returned outcome paired with the number of user callbacks
invoked. -/
def debugOnTrack (dev : Bool) (sub : DebugSub) : Except String Unit × Nat :=
  if !dev then
    (.error "Internal error: onTrack should be called only in development.", 0)
  else
    (.ok (), if sub.hasOnTrack then 1 else 0)

/-- `onTrigger` of `debug.ts` (lines 28–45): same guard as `debugOnTrack`,
then invokes the user's `onTrigger` callback when present (with the top of
`triggerEventInfos`, which does not affect whether the call happens). -/
def debugOnTrigger (dev : Bool) (sub : DebugSub) : Except String Unit × Nat :=
  if !dev then
    (.error "Internal error: onTrigger should be called only in development.", 0)
  else
    (.ok (), if sub.hasOnTrigger then 1 else 0)

/-! ## Claim theorems for `computed.ts` and `debug.ts` -/

/-- C8: a computed built from a getter only (no setter) drops writes: in every
build the underlying state is returned unchanged, a development build emits
exactly the readonly warning, a production build emits nothing, and neither
build throws (the result is `ok`). -/
theorem computed_readonly_write_dropped (dev : Bool) (v newValue : Int) :
    computedSetValue dev (mkComputedRef false v) newValue =
      .ok (mkComputedRef false v, if dev then [readonlyComputedWarning] else []) := by
  cases dev <;> rfl

/-- C9: calling `onTrack` or `onTrigger` outside a development build throws the
internal error unconditionally, with zero user callbacks invoked; in a
development build both return normally on that path. -/
theorem debug_hooks_throw_outside_dev (sub : DebugSub) :
    debugOnTrack false sub =
        (.error "Internal error: onTrack should be called only in development.", 0) ∧
      debugOnTrigger false sub =
        (.error "Internal error: onTrigger should be called only in development.", 0) ∧
      (debugOnTrack true sub).1 = .ok () ∧
      (debugOnTrigger true sub).1 = .ok () := by
  refine ⟨rfl, rfl, ?_, ?_⟩ <;> simp [debugOnTrack, debugOnTrigger]

/-! ## `dep.ts` — the `Dep` class and `addSub` -/

/-- The `activeSub instanceof ComputedRefImpl` test of `Dep.notify`
(`dep.ts` line 113): true exactly when a subscriber is active and it is a
computed. -/
def isComputedActive (σ : RState) : Bool :=
  match σ.activeSub with
  | none => false
  | some s =>
    match getSub σ s with
    | none => false
    | some S => S.isComputed

/-- Observable events of one notification delivery: the subscribers whose
`notify()` was invoked (in invocation order), the subscribers whose dev-only
`onTrigger` hook fired, and the warnings emitted. -/
structure NotifyLog where
  notified : List Nat
  hooks : List Nat
  warnings : List String
deriving DecidableEq

def emptyLog : NotifyLog := { notified := [], hooks := [], warnings := [] }

def appendLog (a b : NotifyLog) : NotifyLog :=
  { notified := a.notified ++ b.notified
    hooks := a.hooks ++ b.hooks
    warnings := a.warnings ++ b.warnings }

/-- Result of `Dep.track`: the state after the call, the returned link (or
`undefined`), and the dev-only `onTrack` hook firings. -/
structure TrackOut where
  st : RState
  link : Option Nat
  hooks : List Nat
deriving DecidableEq

/-- `addSub(link)` of `dep.ts` (lines 143–150): append `link` at the tail of
its dependency's subscriber list unless it is already the tail. -/
def addSub (σ : RState) (li : Nat) : Option RState :=
  match getLink σ li with
  | none => none
  | some L =>
    match getDep σ L.dep with
    | none => none
    | some d =>
      if d.subs = some li then
        some (setDep σ L.dep { d with subs := some li })
      else
        let σa := setLink σ li { L with prevSub := d.subs }
        match d.subs with
        | none => some (setDep σa L.dep { d with subs := some li })
        | some t =>
          match getLink σa t with
          | none => none
          | some T =>
            some (setDep (setLink σa t { T with nextSub := some li }) L.dep
              { d with subs := some li })

/-- The `for (let l = computed.deps; l !== undefined; l = l.nextDep)` loop of
`Dep.track` (lines 65–67), calling `addSub(l)` on each visited link.  The fuel
bounds the walk on a (JS-unrepresentable) cyclic store; every call supplies
the store size. -/
def addSubLoop : Nat → RState → Option Nat → Option RState
  | _, σ, none => some σ
  | 0, σ, some _ => some σ
  | fuel + 1, σ, some li =>
    match addSub σ li with
    | none => none
    | some σ' =>
      match getLink σ' li with
      | none => none
      | some L => addSubLoop fuel σ' L.nextDep

/-- The fresh-link branch of `Dep.track` (lines 40–70): build the link object,
cache it in `this.activeLink`, append it at the tail of the active
subscriber's dependency list, and — when the subscriber is in `TRACKING`
state — run the first-subscriber promotion of a computed dependency and
`addSub` the new link. -/
def trackNewLink (σ : RState) (depId : Nat) (d : DepData) (s : Nat) (S : SubData) :
    Option (RState × Nat) :=
  let li := σ.nextId
  let newL : LinkData :=
    { dep := depId, sub := s, version := d.version
      nextDep := none, prevDep := S.deps
      nextSub := none, prevSub := none, prevActiveLink := none }
  let σ₁ := { setLink σ li newL with nextId := σ.nextId + 1 }
  let σ₂ := setDep σ₁ depId { d with activeLink := some li }
  let step₃ : Option RState :=
    match S.deps with
    | none => some σ₂
    | some t =>
      match getLink σ₂ t with
      | none => none
      | some T => some (setLink σ₂ t { T with nextDep := some li })
  match step₃ with
  | none => none
  | some σ₃ =>
    let σ₄ := setSub σ₃ s { S with deps := some li }
    if S.flags &&& EffectFlags.TRACKING ≠ 0 then
      let step₅ : Option RState :=
        match d.computed with
        | some c =>
          if d.subs = none then
            match getSub σ₄ c with
            | none => none
            | some C =>
              addSubLoop σ₄.links.length
                (setSub σ₄ c
                  { C with flags := C.flags ||| (EffectFlags.TRACKING ||| EffectFlags.DIRTY) })
                C.deps
          else some σ₄
        | none => some σ₄
      match step₅ with
      | none => none
      | some σ₅ =>
        match addSub σ₅ li with
        | none => none
        | some σ₆ => some (σ₆, li)
    else
      some (σ₄, li)

/-- `Dep.track` of `dep.ts` (lines 34–104).  Early return when no subscriber
is active or tracking is suspended; otherwise dispatch on the `activeLink`
cache: fresh link, reuse-and-resync (`version === -1`), or plain cache hit.
The final dev-only `activeSub.onTrack` firing is recorded in `hooks`. -/
def depTrack (dev : Bool) (σ : RState) (depId : Nat) : Option TrackOut :=
  match σ.activeSub with
  | none => some ⟨σ, none, []⟩
  | some s =>
    if σ.shouldTrack = false then some ⟨σ, none, []⟩ else
    match getSub σ s with
    | none => none
    | some S =>
      match getDep σ depId with
      | none => none
      | some d =>
        let hookList := if dev && S.hasOnTrack then [s] else []
        match d.activeLink with
        | none =>
          (match trackNewLink σ depId d s S with
           | none => none
           | some p => some ⟨p.1, some p.2, hookList⟩)
        | some li =>
          match getLink σ li with
          | none => none
          | some L =>
            if L.sub ≠ s then
              match trackNewLink σ depId d s S with
              | none => none
              | some p => some ⟨p.1, some p.2, hookList⟩
            else if L.version = -1 then
              let σ₁ := setLink σ li { L with version := d.version }
              match L.nextDep with
              | none => some ⟨σ₁, some li, hookList⟩
              | some nd =>
                match getLink σ₁ nd with
                | none => none
                | some Lnd =>
                  let σ₂ := setLink σ₁ nd { Lnd with prevDep := L.prevDep }
                  let step₃ : Option RState :=
                    match L.prevDep with
                    | none => some σ₂
                    | some pd =>
                      match getLink σ₂ pd, getLink σ₂ li with
                      | some Lpd, some Lcur =>
                        some (setLink σ₂ pd { Lpd with nextDep := Lcur.nextDep })
                      | _, _ => none
                  match step₃ with
                  | none => none
                  | some σ₃ =>
                    match getSub σ₃ s, getLink σ₃ li with
                    | some Scur, some Lli =>
                      let σ₄ := setLink σ₃ li { Lli with prevDep := Scur.deps }
                      (match getLink σ₄ li with
                       | none => none
                       | some Lli2 =>
                         let σ₅ := setLink σ₄ li { Lli2 with nextDep := none }
                         match getSub σ₅ s with
                         | none => none
                         | some Scur2 =>
                           match Scur2.deps with
                           | none => none
                           | some t =>
                             match getLink σ₅ t with
                             | none => none
                             | some Lt =>
                               let σ₆ := setLink σ₅ t { Lt with nextDep := some li }
                               match getSub σ₆ s with
                               | none => none
                               | some Scur3 =>
                                 some ⟨setSub σ₆ s { Scur3 with deps := some li },
                                   some li, hookList⟩)
                    | _, _ => none
            else
              some ⟨σ, some li, hookList⟩

/-- The subscriber-list walk of `Dep.notify` (lines 116–132), tail to head via
`prevSub`.  Each visited link contributes its subscriber to the notified list;
in dev builds a subscriber with an `onTrigger` callback and a clear `NOTIFIED`
flag also fires the hook first.  The `sub.notify()` call itself belongs to the
missing `effect.ts` and is modelled from the spec as a recorded event (its
internal marking/enqueueing is not interpreted here).  Returns (notified,
hook firings). -/
def notifyWalk (dev : Bool) (σ : RState) : Nat → Option Nat → List Nat × List Nat
  | _, none => ([], [])
  | 0, some _ => ([], [])
  | fuel + 1, some li =>
    match getLink σ li with
    | none => ([], [])
    | some L =>
      let hookFires :=
        dev &&
          (match getSub σ L.sub with
           | some S => S.hasOnTrigger && (S.flags &&& EffectFlags.NOTIFIED == 0)
           | none => false)
      let rest := notifyWalk dev σ fuel L.prevSub
      ((L.sub :: rest.1), (if hookFires then [L.sub] else []) ++ rest.2)

/-- `Dep.notify` of `dep.ts` (lines 112–140): when the active subscriber is a
computed, suppress delivery entirely (the dev-only diagnostic is a TODO in the
source, so no warning is emitted); otherwise `startBatch()`, walk the
subscriber list tail→head, `endBatch()`.  `startBatch`/`endBatch` are modelled
from the spec as the reentrancy depth counter of the missing `effect.ts`. -/
def depNotify (dev : Bool) (σ : RState) (depId : Nat) : RState × NotifyLog :=
  if isComputedActive σ then
    (σ, emptyLog)
  else
    let σ₁ := { σ with batchDepth := σ.batchDepth + 1 }
    let subsTail :=
      match getDep σ₁ depId with
      | none => none
      | some d => d.subs
    let walked := notifyWalk dev σ₁ σ₁.links.length subsTail
    ({ σ₁ with batchDepth := σ₁.batchDepth - 1 },
      { notified := walked.1, hooks := walked.2, warnings := [] })

/-- `Dep.trigger` of `dep.ts` (lines 106–110): bump `this.version`, bump
`globalVersion`, then `notify()`. -/
def depTrigger (dev : Bool) (σ : RState) (depId : Nat) : RState × NotifyLog :=
  match getDep σ depId with
  | none => (σ, emptyLog)
  | some d =>
    let σ₁ := setDep σ depId { d with version := d.version + 1 }
    let σ₂ := { σ₁ with globalVersion := σ₁.globalVersion + 1 }
    depNotify dev σ₂ depId

/-! ## `dep.ts` — module-level `track` and `trigger` -/

/-- Module-level `track(target, type, key)` of `dep.ts` (lines 172–192):
guarded by `shouldTrack && activeSub`; creates the target's `depsMap` and the
key's `Dep` on demand, then calls `dep.track()`.  The `type` argument only
feeds debug info.  Returns the new state and the `onTrack` hook firings. -/
def trackFn (dev : Bool) (σ : RState) (target : Nat) (_ty : TrackOp) (key : Key) :
    Option (RState × List Nat) :=
  if σ.shouldTrack && σ.activeSub.isSome then
    let entry :=
      match alookup σ.targetMap target with
      | some m => (σ, m)
      | none => ({ σ with targetMap := (target, []) :: σ.targetMap }, ([] : List (Key × Nat)))
    let σ₁ := entry.1
    let depsMap := entry.2
    let found :=
      match klookup depsMap key with
      | some i => (σ₁, i)
      | none =>
        let i := σ₁.nextId
        ({ σ₁ with
            nextId := i + 1
            deps := (i, { version := 0, activeLink := none, subs := none, computed := none })
              :: σ₁.deps
            targetMap := (target, (key, i) :: depsMap) :: σ₁.targetMap }, i)
    match depTrack dev found.1 found.2 with
    | none => none
    | some out => some (out.st, out.hooks)
  else
    some (σ, [])

def isArrayT (σ : RState) (t : Nat) : Bool :=
  match alookup σ.kinds t with
  | some k => k.isArray
  | none => false

def isMapT (σ : RState) (t : Nat) : Bool :=
  match alookup σ.kinds t with
  | some k => k.isMap
  | none => false

/-- The per-entry test of the `length`-write branch of `trigger` (`dep.ts`
line 225): `key === 'length' || (!isSymbol(key) && key >= newLength)`. -/
def lengthPred (newValue : Option Nat) (p : Key × Nat) : Bool :=
  p.1 == Key.length || (!(Key.isSymbolKey p.1) && jsKeyGE p.1 newValue)

/-- The dependency-collection phase of module-level `trigger` (`dep.ts`
lines 217–264): `CLEAR` takes every dep of the target; a `length` write on an
array takes the `length` dep and every non-symbol key `>=` the new length;
otherwise the keyed dep plus the iteration-sentinel deps required by the
operation type. -/
def triggerCollect (σ : RState) (target : Nat) (depsMap : List (Key × Nat))
    (ty : TriggerOp) (key : Option Key) (newValue : Option Nat) : List Nat :=
  if ty = TriggerOp.clear then depsMap.map (·.2)
  else if key = some Key.length ∧ isArrayT σ target = true then
    (depsMap.filter (lengthPred newValue)).map (·.2)
  else
    (match key with
     | some k => (klookup depsMap k).toList
     | none => [])
    ++
    (match ty with
     | TriggerOp.add =>
       if isArrayT σ target = false then
         (klookup depsMap Key.iterate).toList ++
           (if isMapT σ target then (klookup depsMap Key.mapKeyIterate).toList else [])
       else if isIntegerKeyOpt key then (klookup depsMap Key.length).toList
       else []
     | TriggerOp.delete =>
       if isArrayT σ target = false then
         (klookup depsMap Key.iterate).toList ++
           (if isMapT σ target then (klookup depsMap Key.mapKeyIterate).toList else [])
       else []
     | TriggerOp.set =>
       if isMapT σ target then (klookup depsMap Key.iterate).toList else []
     | TriggerOp.clear => [])

/-- The delivery loop of module-level `trigger` (lines 267–280): call
`dep.trigger()` on each collected dep in order. -/
def runTriggers (dev : Bool) : RState → List Nat → RState × NotifyLog
  | σ, [] => (σ, emptyLog)
  | σ, i :: rest =>
    let step := depTrigger dev σ i
    let next := runTriggers dev step.1 rest
    (next.1, appendLog step.2 next.2)

/-- Module-level `trigger(target, type, key, newValue, ...)` of `dep.ts`
(lines 202–282): a never-tracked target just bumps `globalVersion`; otherwise
collect the matching deps, then trigger each inside a `startBatch`/`endBatch`
pair (modelled from the spec as the depth counter). -/
def triggerFn (dev : Bool) (σ : RState) (target : Nat) (ty : TriggerOp)
    (key : Option Key) (newValue : Option Nat) : RState × NotifyLog :=
  match alookup σ.targetMap target with
  | none => ({ σ with globalVersion := σ.globalVersion + 1 }, emptyLog)
  | some depsMap =>
    let deps := triggerCollect σ target depsMap ty key newValue
    let σ₁ := { σ with batchDepth := σ.batchDepth + 1 }
    let ran := runTriggers dev σ₁ deps
    ({ ran.1 with batchDepth := ran.1.batchDepth - 1 }, ran.2)

/-! ## Basic state lemmas for `notify` and `trigger` -/

/-- Delivery itself never changes the embedded state: the subscriber-side
effects of `sub.notify()` live in the missing `effect.ts`, and the batch
counter returns to its entry value. -/
theorem depNotify_state (dev : Bool) (σ : RState) (i : Nat) :
    (depNotify dev σ i).1 = σ := by
  unfold depNotify
  by_cases h : isComputedActive σ = true
  · simp [h]
  · simp [h]

/-- On an existing dep, `Dep.trigger` leaves exactly the version-bumped,
global-version-bumped state. -/
theorem depTrigger_state (dev : Bool) (σ : RState) (i : Nat) (d : DepData)
    (h : getDep σ i = some d) :
    (depTrigger dev σ i).1 =
      { setDep σ i { d with version := d.version + 1 } with
          globalVersion := σ.globalVersion + 1 } := by
  unfold depTrigger
  rw [h]
  exact depNotify_state dev _ i

/-- One `Dep.trigger` on an existing dep bumps `globalVersion` by exactly 1. -/
theorem depTrigger_globalVersion (dev : Bool) (σ : RState) (i : Nat)
    (h : (getDep σ i).isSome) :
    (depTrigger dev σ i).1.globalVersion = σ.globalVersion + 1 := by
  obtain ⟨d, hd⟩ := Option.isSome_iff_exists.mp h
  rw [depTrigger_state dev σ i d hd]

/-- `Dep.trigger` never decreases `globalVersion`. -/
theorem depTrigger_globalVersion_mono (dev : Bool) (σ : RState) (i : Nat) :
    σ.globalVersion ≤ (depTrigger dev σ i).1.globalVersion := by
  cases h : getDep σ i with
  | none =>
    unfold depTrigger
    rw [h]
  | some d =>
    rw [depTrigger_state dev σ i d h]
    exact Int.le_add_one le_rfl

/-- `Dep.trigger` keeps every existing dep record existing. -/
theorem depTrigger_preserves_isSome (dev : Bool) (σ : RState) (i j : Nat)
    (h : (getDep σ j).isSome) :
    (getDep (depTrigger dev σ i).1 j).isSome := by
  cases hd : getDep σ i with
  | none =>
    unfold depTrigger
    rw [hd]
    exact h
  | some d =>
    rw [depTrigger_state dev σ i d hd]
    show (getDep (setDep σ i _) j).isSome
    rw [getDep_setDep]
    by_cases hij : j = i
    · simp [hij]
    · simpa [hij] using h

/-- The delivery loop of `trigger` bumps `globalVersion` once per existing
collected dep. -/
theorem runTriggers_globalVersion (dev : Bool) :
    ∀ (ids : List Nat) (σ : RState), (∀ i ∈ ids, (getDep σ i).isSome) →
      (runTriggers dev σ ids).1.globalVersion = σ.globalVersion + ids.length
  | [], σ, _ => by simp [runTriggers]
  | i :: rest, σ, h => by
    have hi : (getDep σ i).isSome := h i (List.mem_cons_self i rest)
    have hrest : ∀ j ∈ rest, (getDep (depTrigger dev σ i).1 j).isSome := fun j hj =>
      depTrigger_preserves_isSome dev σ i j (h j (List.mem_cons_of_mem i hj))
    unfold runTriggers
    rw [runTriggers_globalVersion dev rest (depTrigger dev σ i).1 hrest,
      depTrigger_globalVersion dev σ i hi]
    simp [List.length_cons]
    ring

/-- The delivery loop never decreases `globalVersion`. -/
theorem runTriggers_globalVersion_mono (dev : Bool) :
    ∀ (ids : List Nat) (σ : RState),
      σ.globalVersion ≤ (runTriggers dev σ ids).1.globalVersion
  | [], σ => by simp [runTriggers]
  | i :: rest, σ => by
    unfold runTriggers
    exact le_trans (depTrigger_globalVersion_mono dev σ i)
      (runTriggers_globalVersion_mono dev rest (depTrigger dev σ i).1)

/-! ## C1 — `notify` while a computed is the active subscriber -/

/-- Concrete state for C1: the active subscriber 20 is a computed; dep 41 has
effect 10 subscribed through link 60. -/
def stC1 : RState :=
  { links := [(60, { dep := 41, sub := 10, version := 0, nextDep := none, prevDep := none
                     nextSub := none, prevSub := none, prevActiveLink := none })]
    deps := [(41, { version := 3, activeLink := none, subs := some 60, computed := none })]
    subs := [(10, { deps := some 60, flags := 0, isComputed := false
                    hasOnTrack := false, hasOnTrigger := true }),
             (20, { deps := none, flags := 0, isComputed := true
                    hasOnTrack := false, hasOnTrigger := false })]
    targetMap := [], kinds := [], nextId := 100, globalVersion := 0
    activeSub := some 20, shouldTrack := true, batchDepth := 0 }

/-- C1 (counterexample to the claim as stated): with `__DEV__ = true` and a
computed as the active subscriber, `Dep.notify` emits no diagnostic at all —
the development-build diagnostic asserted by the claim is a bare TODO in the
source (`dep.ts` lines 136–139) — while also notifying nobody. -/
theorem notify_dev_diagnostic_missing :
    (depNotify true stC1 41).2.warnings = [] ∧
      (depNotify true stC1 41).2.notified = [] := by decide

/-- C1 (amended): whenever the active subscriber is a computed, `Dep.notify`
suppresses delivery entirely — no subscriber's `notify()` runs, no hook fires,
no warning is emitted, no error is thrown, and the state is untouched. -/
theorem notify_suppressed_during_computed (dev : Bool) (σ : RState) (depId : Nat)
    (h : isComputedActive σ = true) :
    depNotify dev σ depId = (σ, emptyLog) := by
  unfold depNotify
  simp [h]

/-- C1 witness: the amended theorem applied to `stC1`. -/
theorem notify_suppressed_witness :
    isComputedActive stC1 = true ∧ depNotify false stC1 41 = (stC1, emptyLog) :=
  ⟨by decide, notify_suppressed_during_computed false stC1 41 (by decide)⟩

/-! ## C6 — `Dep.trigger` bumps both versions then notifies -/

/-- C6: on an existing dep, `Dep.trigger` bumps `this.version` by exactly 1
and `globalVersion` by exactly 1, and its entire result is the `notify()`
call on that bumped state. -/
theorem dep_trigger_bumps (dev : Bool) (σ : RState) (depId : Nat) (d : DepData)
    (h : getDep σ depId = some d) :
    depTrigger dev σ depId =
        depNotify dev
          { setDep σ depId { d with version := d.version + 1 } with
              globalVersion := σ.globalVersion + 1 } depId ∧
      (depTrigger dev σ depId).1.globalVersion = σ.globalVersion + 1 ∧
      getDep (depTrigger dev σ depId).1 depId = some { d with version := d.version + 1 } := by
  refine ⟨?_, ?_, ?_⟩
  · unfold depTrigger
    rw [h]
    rfl
  · exact depTrigger_globalVersion dev σ depId (by simp [h])
  · rw [depTrigger_state dev σ depId d h]
    show getDep (setDep σ depId _) depId = _
    rw [getDep_setDep]
    simp

/-- Concrete dep record for the C6 witness. -/
def dC6 : DepData := { version := 5, activeLink := none, subs := none, computed := none }

/-- Concrete state for C6: one dep (id 7), nobody active. -/
def stC6 : RState :=
  { links := [], deps := [(7, dC6)], subs := [], targetMap := [], kinds := []
    nextId := 0, globalVersion := 11, activeSub := none, shouldTrack := true, batchDepth := 0 }

/-- C6 witness: the theorem applied to `stC6` at dep 7. -/
theorem dep_trigger_bumps_witness :
    getDep stC6 7 = some dC6 ∧
      (depTrigger false stC6 7 =
          depNotify false
            { setDep stC6 7 { dC6 with version := dC6.version + 1 } with
                globalVersion := stC6.globalVersion + 1 } 7 ∧
        (depTrigger false stC6 7).1.globalVersion = stC6.globalVersion + 1 ∧
        getDep (depTrigger false stC6 7).1 7 = some { dC6 with version := dC6.version + 1 }) :=
  ⟨by decide, dep_trigger_bumps false stC6 7 dC6 (by decide)⟩

/-! ## C7 — `track` is a no-op without an active subscriber or with tracking
suspended -/

/-- C7: when no subscriber is active or `shouldTrack` is false, both the
module-level `track` and `Dep.track` return the state exactly as given — no
registry entry, dep, link or subscriber record is touched — and fire no
hooks. -/
theorem track_noop_suspended (dev : Bool) (σ : RState) (target : Nat) (ty : TrackOp)
    (key : Key) (depId : Nat)
    (h : σ.activeSub = none ∨ σ.shouldTrack = false) :
    trackFn dev σ target ty key = some (σ, []) ∧
      depTrack dev σ depId = some ⟨σ, none, []⟩ := by
  constructor
  · unfold trackFn
    rcases h with h | h
    · simp [h]
    · simp [h]
  · unfold depTrack
    rcases h with h | h
    · simp [h]
    · cases hA : σ.activeSub with
      | none => simp
      | some s => simp [h]

/-- Concrete state for C7: tracking suspended by an absent active subscriber. -/
def stC7 : RState :=
  { links := [], deps := [(3, { version := 0, activeLink := none, subs := none, computed := none })]
    subs := [], targetMap := [(1, [(Key.idx 0, 3)])], kinds := []
    nextId := 4, globalVersion := 0, activeSub := none, shouldTrack := true, batchDepth := 0 }

/-- C7 witness: the theorem applied to `stC7`. -/
theorem track_noop_suspended_witness :
    (stC7.activeSub = none ∨ stC7.shouldTrack = false) ∧
      (trackFn false stC7 1 TrackOp.get (Key.idx 0) = some (stC7, []) ∧
        depTrack false stC7 3 = some ⟨stC7, none, []⟩) :=
  ⟨Or.inl (by decide),
    track_noop_suspended false stC7 1 TrackOp.get (Key.idx 0) 3 (Or.inl (by decide))⟩

/-! ## C10 — repeated `Dep.track` on a live cached link is idempotent -/

/-- C10: when the `activeLink` cache already holds the active subscriber's
link and its version is not the `-1` reuse sentinel, `Dep.track` returns that
very link and the state completely unchanged (only the dev `onTrack` hook may
fire). -/
theorem track_idempotent_cache_hit (dev : Bool) (σ : RState) (depId s li : Nat)
    (d : DepData) (L : LinkData) (S : SubData)
    (hA : σ.activeSub = some s) (hT : σ.shouldTrack = true)
    (hS : getSub σ s = some S)
    (hd : getDep σ depId = some d) (hal : d.activeLink = some li)
    (hL : getLink σ li = some L) (hsub : L.sub = s) (hver : L.version ≠ -1) :
    depTrack dev σ depId = some ⟨σ, some li, if dev && S.hasOnTrack then [s] else []⟩ := by
  unfold depTrack
  rw [hA]
  simp [hT, hS, hd, hal, hL, hsub, hver]

/-- Concrete link record for the C10 witness. -/
def lkC10 : LinkData :=
  { dep := 3, sub := 1, version := 2, nextDep := none, prevDep := none
    nextSub := none, prevSub := none, prevActiveLink := none }

/-- Concrete dep record for the C10 witness. -/
def dC10 : DepData := { version := 2, activeLink := some 11, subs := some 11, computed := none }

/-- Concrete subscriber record for the C10 witness. -/
def subC10 : SubData :=
  { deps := some 11, flags := 4, isComputed := false, hasOnTrack := false, hasOnTrigger := false }

/-- Concrete state for C10: dep 3's `activeLink` cache holds link 11 of the
active subscriber 1, already synced (version 2, not -1). -/
def stC10 : RState :=
  { links := [(11, lkC10)], deps := [(3, dC10)], subs := [(1, subC10)]
    targetMap := [], kinds := [], nextId := 12, globalVersion := 2
    activeSub := some 1, shouldTrack := true, batchDepth := 0 }

/-- C10 witness: the theorem applied to `stC10`. -/
theorem track_idempotent_witness :
    getLink stC10 11 = some lkC10 ∧ lkC10.version ≠ -1 ∧
      depTrack true stC10 3 = some ⟨stC10, some 11, if true && subC10.hasOnTrack then [1] else []⟩ :=
  ⟨by decide, by decide,
    track_idempotent_cache_hit true stC10 3 1 11 dC10 lkC10 subC10 (by decide) (by decide)
      (by decide) (by decide) (by decide) (by decide) (by decide) (by decide)⟩

/-! ## C3 — `trigger` and the global version counter -/

/-- Concrete state for the C3 counterexample: target 1 was tracked, but only
at index key 0. -/
def stC3 : RState :=
  { links := [], deps := [(5, { version := 0, activeLink := none, subs := none, computed := none })]
    subs := [], targetMap := [(1, [(Key.idx 0, 5)])], kinds := []
    nextId := 6, globalVersion := 0, activeSub := none, shouldTrack := true, batchDepth := 0 }

/-- C3 (counterexample to the claim as stated): a `trigger` on a target that
HAS been tracked but whose `depsMap` matches no dep for the given key collects
nothing and leaves `globalVersion` untouched — the call does not strictly
increase the counter. -/
theorem trigger_no_bump_counterexample :
    ¬ stC3.globalVersion <
        (triggerFn false stC3 1 TriggerOp.set (some (Key.idx 1)) none).1.globalVersion := by
  decide

/-- C3 (amended): `trigger` bumps `globalVersion` by exactly 1 when the target
was never tracked, and otherwise by exactly one per collected dep — so it is
strictly increasing exactly when the target is untracked or some dep matches,
and it never decreases. -/
theorem trigger_globalVersion_amended (dev : Bool) (σ : RState) (target : Nat)
    (ty : TriggerOp) (key : Option Key) (nv : Option Nat) :
    (alookup σ.targetMap target = none →
        (triggerFn dev σ target ty key nv).1.globalVersion = σ.globalVersion + 1) ∧
      (∀ m, alookup σ.targetMap target = some m →
        (∀ i ∈ triggerCollect σ target m ty key nv, (getDep σ i).isSome) →
        (triggerFn dev σ target ty key nv).1.globalVersion =
          σ.globalVersion + (triggerCollect σ target m ty key nv).length) ∧
      σ.globalVersion ≤ (triggerFn dev σ target ty key nv).1.globalVersion := by
  refine ⟨?_, ?_, ?_⟩
  · intro h
    unfold triggerFn
    rw [h]
  · intro m hm hpres
    unfold triggerFn
    rw [hm]
    exact runTriggers_globalVersion dev _ { σ with batchDepth := σ.batchDepth + 1 } hpres
  · unfold triggerFn
    cases h : alookup σ.targetMap target with
    | none => exact Int.le_add_one le_rfl
    | some m =>
      exact runTriggers_globalVersion_mono dev _ { σ with batchDepth := σ.batchDepth + 1 }

/-- Concrete state for the C3 witness: target 1 tracked at index key 0, and
the trigger key matches it. -/
def stC3w : RState :=
  { links := [], deps := [(5, { version := 0, activeLink := none, subs := none, computed := none })]
    subs := [], targetMap := [(1, [(Key.idx 0, 5)])], kinds := []
    nextId := 6, globalVersion := 9, activeSub := none, shouldTrack := true, batchDepth := 0 }

/-- C3 witness: the amended theorem applied to `stC3w` with a matching key —
exactly one collected dep, so `globalVersion` goes up by exactly 1. -/
theorem trigger_globalVersion_witness :
    alookup stC3w.targetMap 1 = some [(Key.idx 0, 5)] ∧
      (triggerFn false stC3w 1 TriggerOp.set (some (Key.idx 0)) none).1.globalVersion =
        stC3w.globalVersion +
          (triggerCollect stC3w 1 [(Key.idx 0, 5)] TriggerOp.set (some (Key.idx 0)) none).length :=
  ⟨by decide,
    (trigger_globalVersion_amended false stC3w 1 TriggerOp.set (some (Key.idx 0)) none).2.1
      [(Key.idx 0, 5)] (by decide) (by decide)⟩

/-! ## C4 — first subscriber of a computed dep: the upstream re-attachment
loop -/

/-- Concrete state for C4: computed 20 owns the two-link dependency list
`50 → 51` (`Dep.track` maintains `sub.deps` as the TAIL, lines 52–56, so
`20.deps = 51` and `50.nextDep = 51`); dep 40 is backed by computed 20 and has
no subscribers; effect 10 is the active, `TRACKING` subscriber about to read
dep 40 for the first time. -/
def stC4 : RState :=
  { links := [(50, { dep := 30, sub := 20, version := 0, nextDep := some 51, prevDep := none
                     nextSub := none, prevSub := none, prevActiveLink := none }),
              (51, { dep := 31, sub := 20, version := 0, nextDep := none, prevDep := some 50
                     nextSub := none, prevSub := none, prevActiveLink := none })]
    deps := [(30, { version := 0, activeLink := none, subs := none, computed := none }),
             (31, { version := 0, activeLink := none, subs := none, computed := none }),
             (40, { version := 0, activeLink := none, subs := none, computed := some 20 })]
    subs := [(10, { deps := none, flags := 4, isComputed := false
                    hasOnTrack := false, hasOnTrigger := false }),
             (20, { deps := some 51, flags := 0, isComputed := true
                    hasOnTrack := false, hasOnTrigger := false })]
    targetMap := [], kinds := [], nextId := 100, globalVersion := 0
    activeSub := some 10, shouldTrack := true, batchDepth := 0 }

/-- C4 (evaluation at the failing input): `Dep.track` on dep 40 promotes
computed 20 (`flags := TRACKING ||| DIRTY = 20`) and runs the
`for (l = computed.deps; l; l = l.nextDep)` loop — but since `computed.deps`
is the list TAIL under this module's own list discipline, the loop re-attaches
only tail link 51 (dep 31 gains it), and link 50 is never passed to `addSub`:
dep 30's subscriber list stays empty, although the code's own comment says
"lazily subscribe to all its deps". -/
theorem computed_first_sub_skips_head_links :
    ((depTrack false stC4 40).map fun o =>
        ((getDep o.st 30).map (·.subs), (getDep o.st 31).map (·.subs),
          (getSub o.st 20).map (·.flags))) =
      some (some none, some (some 51), some 20) := by decide

/-! ## C5 — `length` writes on arrays collect exactly `length` plus
out-of-range indices -/

/-- Membership in a filtered-then-projected dep map. -/
theorem mem_filter_map_snd (m : List (Key × Nat)) (p : Key × Nat → Bool) (dId : Nat) :
    dId ∈ (m.filter p).map (·.2) ↔ ∃ k, (k, dId) ∈ m ∧ p (k, dId) = true := by
  constructor
  · intro h
    obtain ⟨pr, hpr, hsnd⟩ := List.mem_map.mp h
    obtain ⟨hm, hp⟩ := List.mem_filter.mp hpr
    obtain ⟨k, v⟩ := pr
    cases hsnd
    exact ⟨k, hm, hp⟩
  · rintro ⟨k, hm, hp⟩
    exact List.mem_map.mpr ⟨(k, dId), List.mem_filter.mpr ⟨hm, hp⟩, rfl⟩

/-- C5: a non-`CLEAR` `trigger` with key `'length'` on an array target
collects exactly the deps of the `length` key and of the non-symbol keys
`>=` the new length `n`; in particular no integer index below `n` passes the
filter. -/
theorem trigger_length_collects_out_of_range (σ : RState) (target : Nat)
    (m : List (Key × Nat)) (ty : TriggerOp) (n : Nat)
    (hty : ty ≠ TriggerOp.clear) (harr : isArrayT σ target = true) :
    triggerCollect σ target m ty (some Key.length) (some n) =
        (m.filter (lengthPred (some n))).map (·.2) ∧
      (∀ dId, dId ∈ triggerCollect σ target m ty (some Key.length) (some n) ↔
        ∃ k, (k, dId) ∈ m ∧
          (k = Key.length ∨ (Key.isSymbolKey k = false ∧ jsKeyGE k (some n) = true))) ∧
      (∀ i dId, (Key.idx i, dId) ∈ m.filter (lengthPred (some n)) → n ≤ i) := by
  have hcol : triggerCollect σ target m ty (some Key.length) (some n) =
      (m.filter (lengthPred (some n))).map (·.2) := by
    unfold triggerCollect
    rw [if_neg hty, if_pos ⟨rfl, harr⟩]
  refine ⟨hcol, ?_, ?_⟩
  · intro dId
    rw [hcol, mem_filter_map_snd]
    constructor
    · rintro ⟨k, hm, hp⟩
      refine ⟨k, hm, ?_⟩
      simpa [lengthPred, Bool.or_eq_true, Bool.and_eq_true, Bool.not_eq_true'] using hp
    · rintro ⟨k, hm, hp⟩
      refine ⟨k, hm, ?_⟩
      simpa [lengthPred, Bool.or_eq_true, Bool.and_eq_true, Bool.not_eq_true'] using hp
  · intro i dId hmem
    have hp := (List.mem_filter.mp hmem).2
    simpa [lengthPred, jsKeyGE, Key.isSymbolKey] using hp

/-- Concrete dep map for the C5 witness: deps at `length`, index 0, index 3
and the iterate symbol. -/
def mC5 : List (Key × Nat) :=
  [(Key.length, 70), (Key.idx 0, 71), (Key.idx 3, 72), (Key.iterate, 73)]

/-- Concrete state for the C5 witness: target 2 is an array tracked at the
keys of `mC5`. -/
def stC5 : RState :=
  { links := []
    deps := [(70, { version := 0, activeLink := none, subs := none, computed := none }),
             (71, { version := 0, activeLink := none, subs := none, computed := none }),
             (72, { version := 0, activeLink := none, subs := none, computed := none }),
             (73, { version := 0, activeLink := none, subs := none, computed := none })]
    subs := [], targetMap := [(2, mC5)], kinds := [(2, { isArray := true, isMap := false })]
    nextId := 80, globalVersion := 0, activeSub := none, shouldTrack := true, batchDepth := 0 }

/-- C5 witness: the theorem applied to `stC5` with new length 2 — the
collection keeps `length` (dep 70) and index 3 (dep 72), drops index 0
(dep 71) and the symbol key (dep 73). -/
theorem trigger_length_witness :
    (TriggerOp.set ≠ TriggerOp.clear) ∧ isArrayT stC5 2 = true ∧
      (triggerCollect stC5 2 mC5 TriggerOp.set (some Key.length) (some 2) =
          (mC5.filter (lengthPred (some 2))).map (·.2) ∧
        (∀ dId, dId ∈ triggerCollect stC5 2 mC5 TriggerOp.set (some Key.length) (some 2) ↔
          ∃ k, (k, dId) ∈ mC5 ∧
            (k = Key.length ∨ (Key.isSymbolKey k = false ∧ jsKeyGE k (some 2) = true))) ∧
        (∀ i dId, (Key.idx i, dId) ∈ mC5.filter (lengthPred (some 2)) → 2 ≤ i)) :=
  ⟨by decide, by decide,
    trigger_length_collects_out_of_range stC5 2 mC5 TriggerOp.set 2 (by decide) (by decide)⟩

/-! ## C2 — the reuse-and-relink branch of `Dep.track` -/

/-- The pointer expected in `nextDep` position before a (possibly empty)
remainder of a chain: the first id of `rest`, or the trailing pointer `nxt`. -/
def nextPtr (rest : List Nat) (nxt : Option Nat) : Option Nat :=
  match rest with
  | [] => nxt
  | j :: _ => some j

/-- The pointer expected in `prevDep` position after a (possibly empty) chain
prefix: the last id of the prefix, or the leading pointer `p`. -/
def lastPtr : List Nat → Option Nat → Option Nat
  | [], p => p
  | i :: rest, _ => lastPtr rest (some i)

/-- A well-formed doubly linked dependency-list segment of subscriber `s`:
`ids` in head-to-tail order, the first link's `prevDep` being `prev`, the last
link's `nextDep` being `nxt`, and consecutive links wired to each other. -/
def dllSeg (σ : RState) (s : Nat) : Option Nat → List Nat → Option Nat → Bool
  | _, [], _ => true
  | prev, i :: rest, nxt =>
    match getLink σ i with
    | none => false
    | some L =>
      L.sub == s && L.prevDep == prev && L.nextDep == nextPtr rest nxt &&
        dllSeg σ s (some i) rest nxt

/-- The whole dependency list of subscriber `s` under the tail discipline of
`Dep.track`: a closed well-formed segment whose tail is `s.deps`. -/
def isDepChain (σ : RState) (s : Nat) (ids : List Nat) : Bool :=
  dllSeg σ s none ids none &&
    (match getSub σ s with
     | none => false
     | some S => S.deps == lastPtr ids none)

theorem dllSeg_cons (σ : RState) (s : Nat) (p : Option Nat) (i : Nat)
    (rest : List Nat) (n : Option Nat) :
    dllSeg σ s p (i :: rest) n = true ↔
      ∃ L, getLink σ i = some L ∧ L.sub = s ∧ L.prevDep = p ∧
        L.nextDep = nextPtr rest n ∧ dllSeg σ s (some i) rest n = true := by
  cases h : getLink σ i with
  | none => simp [dllSeg, h]
  | some L => simp [dllSeg, h, Bool.and_eq_true, and_assoc]

theorem nextPtr_append (xs ys : List Nat) (n : Option Nat) :
    nextPtr (xs ++ ys) n = nextPtr xs (nextPtr ys n) := by
  cases xs <;> rfl

theorem lastPtr_append (xs ys : List Nat) (p : Option Nat) :
    lastPtr (xs ++ ys) p = lastPtr ys (lastPtr xs p) := by
  induction xs generalizing p with
  | nil => rfl
  | cons x xs ih => exact ih (some x)

theorem lastPtr_concat (ys : List Nat) (la : Nat) (p : Option Nat) :
    lastPtr (ys ++ [la]) p = some la := by
  rw [lastPtr_append]
  rfl

theorem lastPtr_irrel (b : Nat) (rest : List Nat) (p q : Option Nat) :
    lastPtr (b :: rest) p = lastPtr (b :: rest) q := rfl

theorem dllSeg_append (σ : RState) (s : Nat) :
    ∀ (xs ys : List Nat) (p n : Option Nat),
      dllSeg σ s p (xs ++ ys) n = true ↔
        (dllSeg σ s p xs (nextPtr ys n) = true ∧ dllSeg σ s (lastPtr xs p) ys n = true)
  | [], ys, p, n => by simp [dllSeg, lastPtr]
  | x :: xs, ys, p, n => by
    rw [List.cons_append, dllSeg_cons, dllSeg_cons]
    constructor
    · rintro ⟨L, hL, hs, hp, hn, hseg⟩
      obtain ⟨h₁, h₂⟩ := (dllSeg_append σ s xs ys (some x) n).mp hseg
      exact ⟨⟨L, hL, hs, hp, by rwa [nextPtr_append] at hn, h₁⟩, h₂⟩
    · rintro ⟨⟨L, hL, hs, hp, hn, hseg⟩, h₂⟩
      exact ⟨L, hL, hs, hp, by rw [nextPtr_append]; exact hn,
        (dllSeg_append σ s xs ys (some x) n).mpr ⟨hseg, h₂⟩⟩

/-- The fields of a link a chain predicate can see (`version` and the
subscriber-list pointers are invisible to `dllSeg`). -/
def linkShape : Option LinkData → Option (Nat × Option Nat × Option Nat)
  | none => none
  | some L => some (L.sub, L.prevDep, L.nextDep)

/-- Frame lemma: a segment survives any store change that preserves the
shape of its member links. -/
theorem dllSeg_congr (σ σ' : RState) (s : Nat) :
    ∀ (ids : List Nat) (p n : Option Nat),
      (∀ i ∈ ids, linkShape (getLink σ' i) = linkShape (getLink σ i)) →
      dllSeg σ s p ids n = true → dllSeg σ' s p ids n = true
  | [], _, _, _, _ => rfl
  | i :: rest, p, n, hfr, hseg => by
    obtain ⟨L, hL, hs, hp, hn, hrest⟩ := (dllSeg_cons σ s p i rest n).mp hseg
    have hsh := hfr i (List.mem_cons_self i rest)
    rw [hL] at hsh
    cases hL' : getLink σ' i with
    | none => rw [hL'] at hsh; simp [linkShape] at hsh
    | some L' =>
      rw [hL'] at hsh
      simp only [linkShape, Option.some.injEq, Prod.mk.injEq] at hsh
      obtain ⟨h1, h2, h3⟩ := hsh
      exact (dllSeg_cons σ' s p i rest n).mpr
        ⟨L', hL', h1.trans hs, h2.trans hp, h3.trans hn,
          dllSeg_congr σ σ' s rest (some i) n
            (fun j hj => hfr j (List.mem_cons_of_mem i hj)) hrest⟩

/-- Rewiring the `nextDep` of the last link of a segment (all other member
links keeping their shape) moves the segment's trailing pointer. -/
theorem dllSeg_update_last (σ σ' : RState) (s : Nat) (ys : List Nat) (la : Nat)
    (p n n' : Option Nat)
    (hseg : dllSeg σ s p (ys ++ [la]) n = true)
    (hfr : ∀ i ∈ ys, linkShape (getLink σ' i) = linkShape (getLink σ i))
    (hla : ∀ L, getLink σ la = some L →
      ∃ L', getLink σ' la = some L' ∧ L'.sub = L.sub ∧ L'.prevDep = L.prevDep ∧
        L'.nextDep = n') :
    dllSeg σ' s p (ys ++ [la]) n' = true := by
  obtain ⟨hys, hlaseg⟩ := (dllSeg_append σ s ys [la] p n).mp hseg
  obtain ⟨L, hL, hs, hp, hn, -⟩ := (dllSeg_cons σ s (lastPtr ys p) la [] n).mp hlaseg
  obtain ⟨L', hL', hs', hp', hn'⟩ := hla L hL
  refine (dllSeg_append σ' s ys [la] p n').mpr ⟨?_, ?_⟩
  · exact dllSeg_congr σ σ' s ys p (nextPtr [la] n') hfr hys
  · exact (dllSeg_cons σ' s (lastPtr ys p) la [] n').mpr
      ⟨L', hL', hs'.trans hs, hp'.trans hp, hn', rfl⟩

/-- Rewiring the `prevDep` of the first link of a segment (all other member
links keeping their shape) moves the segment's leading pointer. -/
theorem dllSeg_update_head (σ σ' : RState) (s : Nat) (x : Nat) (rest : List Nat)
    (p p' n : Option Nat)
    (hseg : dllSeg σ s p (x :: rest) n = true)
    (hfr : ∀ i ∈ rest, linkShape (getLink σ' i) = linkShape (getLink σ i))
    (hx : ∀ L, getLink σ x = some L →
      ∃ L', getLink σ' x = some L' ∧ L'.sub = L.sub ∧ L'.prevDep = p' ∧
        L'.nextDep = L.nextDep) :
    dllSeg σ' s p' (x :: rest) n = true := by
  obtain ⟨L, hL, hs, hp, hn, hrest⟩ := (dllSeg_cons σ s p x rest n).mp hseg
  obtain ⟨L', hL', hs', hp', hn'⟩ := hx L hL
  exact (dllSeg_cons σ' s p' x rest n).mpr
    ⟨L', hL', hs'.trans hs, hp', hn'.trans hn,
      dllSeg_congr σ σ' s rest (some x) n hfr hrest⟩

/-- Moving one element to the tail is a permutation. -/
theorem perm_move_to_tail (A B : List Nat) (l : Nat) :
    (A ++ B ++ [l]).Perm (A ++ l :: B) := by
  rw [List.append_assoc]
  exact List.Perm.append_left A (List.perm_append_singleton l B)

/-- Reassembly of a relinked dependency list: given the already-rebuilt
prefix (trailing into the old splice successor `b`), the rebuilt middle
segment, the moved link's final record, and the subscriber's new tail
pointer, the whole relinked list is a well-formed chain. -/
theorem chain_assemble (σ' : RState) (s l b t : Nat) (A B' ys : List Nat)
    (pA : Option Nat) (Lf : LinkData) (S' : SubData)
    (hpA : pA = lastPtr A none)
    (hBsplit : b :: B' = ys ++ [t])
    (hAseg : dllSeg σ' s none A (some b) = true)
    (hBseg : dllSeg σ' s pA (b :: B') (some l) = true)
    (hLf : getLink σ' l = some Lf) (hLfsub : Lf.sub = s)
    (hLfprev : Lf.prevDep = some t) (hLfnext : Lf.nextDep = none)
    (hS' : getSub σ' s = some S') (hS'deps : S'.deps = some l) :
    isDepChain σ' s (A ++ (b :: B') ++ [l]) = true := by
  unfold isDepChain
  rw [Bool.and_eq_true]
  constructor
  · rw [List.append_assoc]
    refine (dllSeg_append σ' s A ((b :: B') ++ [l]) none none).mpr ⟨hAseg, ?_⟩
    refine (dllSeg_append σ' s (b :: B') [l] (lastPtr A none) none).mpr ⟨?_, ?_⟩
    · rw [← hpA]
      exact hBseg
    · refine (dllSeg_cons σ' s (lastPtr (b :: B') (lastPtr A none)) l [] none).mpr
        ⟨Lf, hLf, hLfsub, ?_, hLfnext, rfl⟩
      rw [hLfprev, hBsplit, lastPtr_concat]
  · rw [hS']
    have h1 : lastPtr (A ++ b :: (B' ++ [l])) none = some l := by
      have h0 := lastPtr_concat (A ++ (b :: B')) l none
      simpa using h0
    simp [hS'deps, h1]

/-- C2: the reuse branch of `Dep.track` — when the `activeLink` cache holds
the active subscriber's link carrying the `-1` reuse sentinel inside a
well-formed dependency list `A ++ l :: B`, the call resyncs the link's
version to the dep's current version, leaves the link at (or moves it to) the
tail of the subscriber's dependency list, and that list is again a
well-formed doubly linked list holding exactly the same set of links (it is
the permutation `A ++ B ++ [l]` of the old list). -/
theorem track_reuse_preserves_dep_list (dev : Bool) (σ : RState) (depId s l : Nat)
    (d : DepData) (L : LinkData) (S : SubData) (A B : List Nat)
    (hA : σ.activeSub = some s) (hT : σ.shouldTrack = true)
    (hS : getSub σ s = some S)
    (hd : getDep σ depId = some d) (hal : d.activeLink = some l)
    (hL : getLink σ l = some L) (hver : L.version = -1)
    (hchain : isDepChain σ s (A ++ l :: B) = true)
    (hnodup : (A ++ l :: B).Nodup) :
    ∃ σ' hooks, depTrack dev σ depId = some ⟨σ', some l, hooks⟩ ∧
      (∃ L', getLink σ' l = some L' ∧ L'.version = d.version) ∧
      (∃ S', getSub σ' s = some S' ∧ S'.deps = some l) ∧
      isDepChain σ' s (A ++ B ++ [l]) = true ∧
      (A ++ B ++ [l]).Perm (A ++ l :: B) := by
  unfold isDepChain at hchain
  rw [Bool.and_eq_true] at hchain
  obtain ⟨hseg, hdeps⟩ := hchain
  rw [hS] at hdeps
  have hSdeps : S.deps = lastPtr (A ++ l :: B) none := by simpa using hdeps
  obtain ⟨hsegA, hseglB⟩ := (dllSeg_append σ s A (l :: B) none none).mp hseg
  obtain ⟨L₀, hL₀, hLsub, hLprev, hLnext, hsegB⟩ :=
    (dllSeg_cons σ s (lastPtr A none) l B none).mp hseglB
  rw [hL] at hL₀
  injection hL₀ with hL₀e
  subst hL₀e
  have hnodupA : A.Nodup := hnodup.of_append_left
  have hnodupLB : (l :: B).Nodup := hnodup.of_append_right
  have hdisj : A.Disjoint (l :: B) := List.disjoint_of_nodup_append hnodup
  have hlB : l ∉ B := (List.nodup_cons.mp hnodupLB).1
  have hnodupB : B.Nodup := (List.nodup_cons.mp hnodupLB).2
  have hlA : l ∉ A := fun h => hdisj h (List.mem_cons_self l B)
  cases B with
  | nil =>
    have hnext : L.nextDep = none := hLnext
    have hSl : S.deps = some l := by rw [hSdeps, lastPtr_concat]
    refine ⟨setLink σ l { L with version := d.version },
      if dev && S.hasOnTrack then [s] else [], ?_, ?_, ?_, ?_, ?_⟩
    · unfold depTrack
      rw [hA]
      simp [hT, hS, hd, hal, hL, hLsub, hver, hnext]
    · exact ⟨{ L with version := d.version }, by simp [getLink_setLink], rfl⟩
    · exact ⟨S, hS, hSl⟩
    · have hshape : ∀ i ∈ A ++ [l],
          linkShape (getLink (setLink σ l { L with version := d.version }) i) =
            linkShape (getLink σ i) := by
        intro i hi
        rw [getLink_setLink]
        by_cases hil : i = l
        · subst hil
          rw [if_pos rfl, hL]
          rfl
        · rw [if_neg hil]
      unfold isDepChain
      rw [Bool.and_eq_true]
      constructor
      · rw [List.append_nil]
        exact dllSeg_congr σ _ s (A ++ [l]) none none hshape hseg
      · have hgs : getSub (setLink σ l { L with version := d.version }) s = some S := hS
        rw [hgs]
        simp [hSl, List.append_nil, lastPtr_concat]
    · rw [List.append_nil]
  | cons b B' =>
    have hnext : L.nextDep = some b := hLnext
    obtain ⟨Lb, hLb, hLbsub, hLbprev, hLbnext, hsegB'⟩ :=
      (dllSeg_cons σ s (some l) b B' none).mp hsegB
    have hbB' : b ∉ B' := (List.nodup_cons.mp hnodupB).1
    have hbl : b ≠ l := fun h => hlB (h ▸ List.mem_cons_self b B')
    have hlb : l ≠ b := Ne.symm hbl
    have hbA : b ∉ A := fun h => hdisj h (List.mem_cons_of_mem l (List.mem_cons_self b B'))
    obtain ⟨ys, t, hBsplit⟩ : ∃ ys t, b :: B' = ys ++ [t] := by
      rcases List.eq_nil_or_concat' (b :: B') with h | ⟨ys, t, h⟩
      · exact absurd h (List.cons_ne_nil b B')
      · exact ⟨ys, t, h⟩
    have htmem : t ∈ b :: B' := by
      rw [hBsplit]
      exact List.mem_append_right ys (List.mem_singleton_self t)
    have htl : t ≠ l := fun h => hlB (h ▸ htmem)
    have hlt : l ≠ t := Ne.symm htl
    have htA : t ∉ A := fun h => hdisj h (List.mem_cons_of_mem l htmem)
    have hnodupYs : (ys ++ [t]).Nodup := hBsplit ▸ hnodupB
    have htys : t ∉ ys := fun h =>
      (List.disjoint_of_nodup_append hnodupYs) h (List.mem_singleton_self t)
    have hSt : S.deps = some t := by
      rw [hSdeps, lastPtr_append]
      show lastPtr (b :: B') (some l) = some t
      rw [hBsplit, lastPtr_concat]
    have hysmem : ∀ i ∈ ys, i ∈ b :: B' := fun i hi => by
      rw [hBsplit]
      exact List.mem_append_left [t] hi
    have hysl : ∀ i ∈ ys, i ≠ l := fun i hi h => hlB (h ▸ hysmem i hi)
    have hysA : ∀ i ∈ ys, i ∉ A := fun i hi h => hdisj h (List.mem_cons_of_mem l (hysmem i hi))
    rcases List.eq_nil_or_concat' A with hAnil | ⟨ysA, pd, hAeq⟩
    · -- A = []
      subst hAnil
      have hpA : L.prevDep = none := hLprev
      cases ys with
      | nil =>
        -- B = [b], t = b
        rw [List.nil_append] at hBsplit
        injection hBsplit with htb hB'nil
        subst htb
        subst hB'nil
        refine ⟨setSub
          (setLink
            (setLink
              (setLink
                (setLink
                  (setLink σ l { L with version := d.version })
                  b { Lb with prevDep := none })
                l { L with version := d.version, prevDep := some b })
              l { L with version := d.version, prevDep := some b, nextDep := none })
            b { Lb with prevDep := none, nextDep := some l })
          s { S with deps := some l },
          if dev && S.hasOnTrack then [s] else [], ?_, ?_, ?_, ?_, ?_⟩
        · unfold depTrack
          rw [hA]
          simp [hT, hS, hd, hal, hL, hLsub, hver, hnext, hpA, hLb, hSt,
            getLink_setLink, getSub_setLink, hbl, hlb]
        · exact ⟨{ L with version := d.version, prevDep := some b, nextDep := none },
            by simp [getLink_setSub, getLink_setLink, hlb], rfl⟩
        · exact ⟨{ S with deps := some l }, by simp [getSub_setSub], rfl⟩
        · refine chain_assemble _ s l b b [] [] [] none
            { L with version := d.version, prevDep := some b, nextDep := none }
            { S with deps := some l } rfl rfl rfl ?_ ?_ hLsub rfl rfl ?_ rfl
          · refine (dllSeg_cons _ s none b [] (some l)).mpr
              ⟨{ Lb with prevDep := none, nextDep := some l },
                by simp [getLink_setSub, getLink_setLink], hLbsub, rfl, rfl, rfl⟩
          · simp [getLink_setSub, getLink_setLink, hlb]
          · simp [getSub_setSub]
        · exact perm_move_to_tail [] [b] l
      | cons y ys' =>
        rw [List.cons_append] at hBsplit
        injection hBsplit with hby hB'eq
        subst hby
        subst hB'eq
        have htb : t ≠ b := fun h => htys (by rw [h]; exact List.mem_cons_self b ys')
        have hbt : b ≠ t := Ne.symm htb
        obtain ⟨hsegys, hsegt⟩ := (dllSeg_append σ s (b :: ys') [t] (some l) none).mp hsegB
        obtain ⟨Lt, hLt, hLtsub, hLtprev, hLtnext, -⟩ :=
          (dllSeg_cons σ s (lastPtr (b :: ys') (some l)) t [] none).mp hsegt
        refine ⟨setSub
          (setLink
            (setLink
              (setLink
                (setLink
                  (setLink σ l { L with version := d.version })
                  b { Lb with prevDep := none })
                l { L with version := d.version, prevDep := some t })
              l { L with version := d.version, prevDep := some t, nextDep := none })
            t { Lt with nextDep := some l })
          s { S with deps := some l },
          if dev && S.hasOnTrack then [s] else [], ?_, ?_, ?_, ?_, ?_⟩
        · unfold depTrack
          rw [hA]
          simp [hT, hS, hd, hal, hL, hLsub, hver, hnext, hpA, hLb, hLt, hSt,
            getLink_setLink, getSub_setLink, hbl, hlb, htl, hlt, htb, hbt]
        · exact ⟨{ L with version := d.version, prevDep := some t, nextDep := none },
            by simp [getLink_setSub, getLink_setLink, hlt, hlb], rfl⟩
        · exact ⟨{ S with deps := some l }, by simp [getSub_setSub], rfl⟩
        · have hmid : dllSeg (setLink σ b { Lb with prevDep := none }) s none
              (b :: (ys' ++ [t])) none = true := by
            refine dllSeg_update_head σ _ s b (ys' ++ [t]) (some l) none none hsegB ?_ ?_
            · intro i hi
              have hib : i ≠ b := fun h => hbB' (h ▸ hi)
              simp [getLink_setLink, hib]
            · intro L0 hL0
              rw [hLb] at hL0
              injection hL0 with hE
              subst hE
              exact ⟨{ Lb with prevDep := none }, by simp [getLink_setLink], rfl, rfl, rfl⟩
          have hBpart : dllSeg
              (setSub
                (setLink
                  (setLink
                    (setLink
                      (setLink
                        (setLink σ l { L with version := d.version })
                        b { Lb with prevDep := none })
                      l { L with version := d.version, prevDep := some t })
                    l { L with version := d.version, prevDep := some t, nextDep := none })
                  t { Lt with nextDep := some l })
                s { S with deps := some l })
              s none ((b :: ys') ++ [t]) (some l) = true := by
            refine dllSeg_update_last (setLink σ b { Lb with prevDep := none }) _ s
              (b :: ys') t none none (some l) hmid ?_ ?_
            · intro i hi
              rcases List.mem_cons.mp hi with rfl | hi'
              · simp [getLink_setSub, getLink_setLink, hbt, hbl]
              · have hib : i ≠ b := fun h => hbB' (h ▸ List.mem_append_left [t] hi')
                have hit : i ≠ t := fun h =>
                  htys (h ▸ List.mem_cons_of_mem b hi')
                have hil : i ≠ l := hysl i (List.mem_cons_of_mem b hi')
                simp [getLink_setSub, getLink_setLink, hib, hit, hil]
            · intro L0 hL0
              rw [getLink_setLink, if_neg htb, hLt] at hL0
              injection hL0 with hE
              subst hE
              exact ⟨{ Lt with nextDep := some l },
                by simp [getLink_setSub, getLink_setLink], rfl, rfl, rfl⟩
          refine chain_assemble _ s l b t [] (ys' ++ [t]) (b :: ys') none
            { L with version := d.version, prevDep := some t, nextDep := none }
            { S with deps := some l } rfl rfl rfl hBpart ?_ hLsub rfl rfl ?_ rfl
          · simp [getLink_setSub, getLink_setLink, hlt, hlb]
          · simp [getSub_setSub]
        · exact perm_move_to_tail [] (b :: (ys' ++ [t])) l
    · -- A = ysA ++ [pd]
      subst hAeq
      have hpdA : pd ∈ ysA ++ [pd] := List.mem_append_right ysA (List.mem_singleton_self pd)
      have hpdl : pd ≠ l := fun h => hlA (h ▸ hpdA)
      have hlpd : l ≠ pd := Ne.symm hpdl
      have hpdb : pd ≠ b := fun h => hbA (h ▸ hpdA)
      have hbpd : b ≠ pd := Ne.symm hpdb
      have hpdt : pd ≠ t := fun h => htA (h ▸ hpdA)
      have htpd : t ≠ pd := Ne.symm hpdt
      have hpA : L.prevDep = some pd := by rw [hLprev, lastPtr_concat]
      have hpdysA : pd ∉ ysA := fun h =>
        (List.disjoint_of_nodup_append hnodupA) h (List.mem_singleton_self pd)
      have hysAmem : ∀ i ∈ ysA, i ∈ ysA ++ [pd] := fun i hi => List.mem_append_left [pd] hi
      have hysAl : ∀ i ∈ ysA, i ≠ l := fun i hi h => hlA (h ▸ hysAmem i hi)
      have hysAb : ∀ i ∈ ysA, i ≠ b := fun i hi h => hbA (h ▸ hysAmem i hi)
      have hysAt : ∀ i ∈ ysA, i ≠ t := fun i hi h => htA (h ▸ hysAmem i hi)
      obtain ⟨hsegysA, hsegpd⟩ := (dllSeg_append σ s ysA [pd] none (some l)).mp hsegA
      obtain ⟨Lpd, hLpd, hLpdsub, hLpdprev, hLpdnext, -⟩ :=
        (dllSeg_cons σ s (lastPtr ysA none) pd [] (some l)).mp hsegpd
      cases ys with
      | nil =>
        rw [List.nil_append] at hBsplit
        injection hBsplit with htb hB'nil
        subst htb
        subst hB'nil
        refine ⟨setSub
          (setLink
            (setLink
              (setLink
                (setLink
                  (setLink
                    (setLink σ l { L with version := d.version })
                    b { Lb with prevDep := some pd })
                  pd { Lpd with nextDep := some b })
                l { L with version := d.version, prevDep := some b })
              l { L with version := d.version, prevDep := some b, nextDep := none })
            b { Lb with prevDep := some pd, nextDep := some l })
          s { S with deps := some l },
          if dev && S.hasOnTrack then [s] else [], ?_, ?_, ?_, ?_, ?_⟩
        · unfold depTrack
          rw [hA]
          simp [hT, hS, hd, hal, hL, hLsub, hver, hnext, hpA, hLb, hLpd, hSt,
            getLink_setLink, getSub_setLink, hbl, hlb, hpdb, hpdl, hlpd, hbpd]
        · exact ⟨{ L with version := d.version, prevDep := some b, nextDep := none },
            by simp [getLink_setSub, getLink_setLink, hlb, hlpd], rfl⟩
        · exact ⟨{ S with deps := some l }, by simp [getSub_setSub], rfl⟩
        · have hApart : dllSeg
              (setSub
                (setLink
                  (setLink
                    (setLink
                      (setLink
                        (setLink
                          (setLink σ l { L with version := d.version })
                          b { Lb with prevDep := some pd })
                        pd { Lpd with nextDep := some b })
                      l { L with version := d.version, prevDep := some b })
                    l { L with version := d.version, prevDep := some b, nextDep := none })
                  b { Lb with prevDep := some pd, nextDep := some l })
                s { S with deps := some l })
              s none (ysA ++ [pd]) (some b) = true := by
            refine dllSeg_update_last σ _ s ysA pd none (some l) (some b) hsegA ?_ ?_
            · intro i hi
              have h1 := hysAl i hi
              have h2 := hysAb i hi
              have h4 : i ≠ pd := fun h => hpdysA (h ▸ hi)
              simp [getLink_setSub, getLink_setLink, h1, h2, h4]
            · intro L0 hL0
              rw [hLpd] at hL0
              injection hL0 with hE
              subst hE
              exact ⟨{ Lpd with nextDep := some b },
                by simp [getLink_setSub, getLink_setLink, hpdb, hpdl], rfl, rfl, rfl⟩
          refine chain_assemble _ s l b b (ysA ++ [pd]) [] [] (some pd)
            { L with version := d.version, prevDep := some b, nextDep := none }
            { S with deps := some l } (by rw [lastPtr_concat]) rfl hApart ?_ ?_ hLsub rfl rfl ?_ rfl
          · refine (dllSeg_cons _ s (some pd) b [] (some l)).mpr
              ⟨{ Lb with prevDep := some pd, nextDep := some l },
                by simp [getLink_setSub, getLink_setLink], hLbsub, rfl, rfl, rfl⟩
          · simp [getLink_setSub, getLink_setLink, hlb, hlpd]
          · simp [getSub_setSub]
        · exact perm_move_to_tail (ysA ++ [pd]) [b] l
      | cons y ys' =>
        rw [List.cons_append] at hBsplit
        injection hBsplit with hby hB'eq
        subst hby
        subst hB'eq
        have htb : t ≠ b := fun h => htys (by rw [h]; exact List.mem_cons_self b ys')
        have hbt : b ≠ t := Ne.symm htb
        obtain ⟨hsegys, hsegt⟩ := (dllSeg_append σ s (b :: ys') [t] (some l) none).mp hsegB
        obtain ⟨Lt, hLt, hLtsub, hLtprev, hLtnext, -⟩ :=
          (dllSeg_cons σ s (lastPtr (b :: ys') (some l)) t [] none).mp hsegt
        refine ⟨setSub
          (setLink
            (setLink
              (setLink
                (setLink
                  (setLink
                    (setLink σ l { L with version := d.version })
                    b { Lb with prevDep := some pd })
                  pd { Lpd with nextDep := some b })
                l { L with version := d.version, prevDep := some t })
              l { L with version := d.version, prevDep := some t, nextDep := none })
            t { Lt with nextDep := some l })
          s { S with deps := some l },
          if dev && S.hasOnTrack then [s] else [], ?_, ?_, ?_, ?_, ?_⟩
        · unfold depTrack
          rw [hA]
          simp [hT, hS, hd, hal, hL, hLsub, hver, hnext, hpA, hLb, hLpd, hLt, hSt,
            getLink_setLink, getSub_setLink, hbl, hlb, hpdb, hpdl, hlpd, hbpd,
            htl, hlt, htb, hbt, htpd, hpdt]
        · exact ⟨{ L with version := d.version, prevDep := some t, nextDep := none },
            by simp [getLink_setSub, getLink_setLink, hlt, hlb, hlpd], rfl⟩
        · exact ⟨{ S with deps := some l }, by simp [getSub_setSub], rfl⟩
        · have hmid : dllSeg (setLink σ b { Lb with prevDep := some pd }) s (some pd)
              (b :: (ys' ++ [t])) none = true := by
            refine dllSeg_update_head σ _ s b (ys' ++ [t]) (some l) (some pd) none hsegB ?_ ?_
            · intro i hi
              have hib : i ≠ b := fun h => hbB' (h ▸ hi)
              simp [getLink_setLink, hib]
            · intro L0 hL0
              rw [hLb] at hL0
              injection hL0 with hE
              subst hE
              exact ⟨{ Lb with prevDep := some pd }, by simp [getLink_setLink], rfl, rfl, rfl⟩
          have hBpart : dllSeg
              (setSub
                (setLink
                  (setLink
                    (setLink
                      (setLink
                        (setLink
                          (setLink σ l { L with version := d.version })
                          b { Lb with prevDep := some pd })
                        pd { Lpd with nextDep := some b })
                      l { L with version := d.version, prevDep := some t })
                    l { L with version := d.version, prevDep := some t, nextDep := none })
                  t { Lt with nextDep := some l })
                s { S with deps := some l })
              s (some pd) ((b :: ys') ++ [t]) (some l) = true := by
            refine dllSeg_update_last (setLink σ b { Lb with prevDep := some pd }) _ s
              (b :: ys') t (some pd) none (some l) hmid ?_ ?_
            · intro i hi
              rcases List.mem_cons.mp hi with rfl | hi'
              · simp [getLink_setSub, getLink_setLink, hbt, hbl, hbpd]
              · have hib : i ≠ b := fun h => hbB' (h ▸ List.mem_append_left [t] hi')
                have hit : i ≠ t := fun h => htys (h ▸ List.mem_cons_of_mem b hi')
                have hil : i ≠ l := hysl i (List.mem_cons_of_mem b hi')
                have hipd : i ≠ pd := fun h =>
                  (hysA i (List.mem_cons_of_mem b hi')) (h ▸ hpdA)
                simp [getLink_setSub, getLink_setLink, hib, hit, hil, hipd]
            · intro L0 hL0
              rw [getLink_setLink, if_neg htb, hLt] at hL0
              injection hL0 with hE
              subst hE
              exact ⟨{ Lt with nextDep := some l },
                by simp [getLink_setSub, getLink_setLink], rfl, rfl, rfl⟩
          have hApart : dllSeg
              (setSub
                (setLink
                  (setLink
                    (setLink
                      (setLink
                        (setLink
                          (setLink σ l { L with version := d.version })
                          b { Lb with prevDep := some pd })
                        pd { Lpd with nextDep := some b })
                      l { L with version := d.version, prevDep := some t })
                    l { L with version := d.version, prevDep := some t, nextDep := none })
                  t { Lt with nextDep := some l })
                s { S with deps := some l })
              s none (ysA ++ [pd]) (some b) = true := by
            refine dllSeg_update_last σ _ s ysA pd none (some l) (some b) hsegA ?_ ?_
            · intro i hi
              have h1 := hysAl i hi
              have h2 := hysAb i hi
              have h3 := hysAt i hi
              have h4 : i ≠ pd := fun h => hpdysA (h ▸ hi)
              simp [getLink_setSub, getLink_setLink, h1, h2, h3, h4]
            · intro L0 hL0
              rw [hLpd] at hL0
              injection hL0 with hE
              subst hE
              exact ⟨{ Lpd with nextDep := some b },
                by simp [getLink_setSub, getLink_setLink, hpdt, hpdl, hpdb], rfl, rfl, rfl⟩
          refine chain_assemble _ s l b t (ysA ++ [pd]) (ys' ++ [t]) (b :: ys') (some pd)
            { L with version := d.version, prevDep := some t, nextDep := none }
            { S with deps := some l } (by rw [lastPtr_concat]) rfl hApart hBpart ?_ hLsub
            rfl rfl ?_ rfl
          · simp [getLink_setSub, getLink_setLink, hlt, hlb, hlpd]
          · simp [getSub_setSub]
        · exact perm_move_to_tail (ysA ++ [pd]) (b :: (ys' ++ [t])) l

/-- Concrete reused link (id 11, version -1) for the C2 witness. -/
def lkC2 : LinkData :=
  { dep := 3, sub := 1, version := -1, nextDep := some 12, prevDep := some 10
    nextSub := none, prevSub := none, prevActiveLink := none }

/-- Concrete dep record (id 3) for the C2 witness. -/
def dC2 : DepData := { version := 7, activeLink := some 11, subs := none, computed := none }

/-- Concrete subscriber record (id 1) for the C2 witness; its dependency-list
tail is link 12. -/
def subC2 : SubData :=
  { deps := some 12, flags := 4, isComputed := false, hasOnTrack := false, hasOnTrigger := false }

/-- Concrete state for the C2 witness: subscriber 1's dependency list is
`10 → 11 → 12` with the middle link 11 carrying the `-1` reuse sentinel and
cached as dep 3's `activeLink`. -/
def stC2 : RState :=
  { links := [(10, { dep := 2, sub := 1, version := 0, nextDep := some 11, prevDep := none
                     nextSub := none, prevSub := none, prevActiveLink := none }),
              (11, lkC2),
              (12, { dep := 4, sub := 1, version := 0, nextDep := none, prevDep := some 11
                     nextSub := none, prevSub := none, prevActiveLink := none })]
    deps := [(3, dC2)], subs := [(1, subC2)]
    targetMap := [], kinds := [], nextId := 50, globalVersion := 0
    activeSub := some 1, shouldTrack := true, batchDepth := 0 }

/-- C2 witness: the theorem applied to `stC2` — link 11 is resynced to
version 7 and moved to the tail, the relinked list `10 → 12 → 11` is still a
well-formed chain with the same links. -/
theorem track_reuse_witness :
    isDepChain stC2 1 ([10] ++ 11 :: [12]) = true ∧ ([10] ++ 11 :: [12]).Nodup ∧
      (∃ σ' hooks, depTrack false stC2 3 = some ⟨σ', some 11, hooks⟩ ∧
        (∃ L', getLink σ' 11 = some L' ∧ L'.version = dC2.version) ∧
        (∃ S', getSub σ' 1 = some S' ∧ S'.deps = some 11) ∧
        isDepChain σ' 1 ([10] ++ [12] ++ [11]) = true ∧
        ([10] ++ [12] ++ [11]).Perm ([10] ++ 11 :: [12])) :=
  ⟨by decide, by decide,
    track_reuse_preserves_dep_list false stC2 3 1 11 dC2 lkC2 subC2 [10] [12]
      (by decide) (by decide) (by decide) (by decide) (by decide) (by decide) (by decide)
      (by decide) (by decide)⟩
